import Mathlib

/-!
# Verification of the risk-estimation core

Shallow embedding of the statistical core of the collision dashboard:
the category normalizers (`cleanCat`, `val`, `normalizeDriverSex`), the
marginal statistics builder (`buildMarginals`), the factor ranking engine
(`analyzeFactors`) and the risk estimator (`estimateRisk`).

Modelling conventions:
* JavaScript numbers are modelled by `ℚ` (every number the core actually
  produces is a finite ratio of machine integers; `isFinite` checks are
  therefore always true in the model and JS `Infinity` for the risk ratio
  is modelled by `none : Option ℚ`).
* JavaScript `Map` objects are modelled by association lists preserving
  insertion order; `Map.get` uses SameValueZero equality, so keys carry
  their JS runtime type: `JSVal` distinguishes a string key from a number
  key (`Map.get(5)` misses a `"5"` key).
* `null`/`undefined` fields are `Option` values.
-/

/-- A JavaScript primitive value used as a `Map` key: a string or a
(finite) number.  SameValueZero equality never identifies a string with a
number, which `DecidableEq` on this type reflects. -/
inductive JSVal where
  | str : String → JSVal
  | num : Int → JSVal
deriving DecidableEq, Repr

/-- One analysis record as produced by the CSV loader: injury flag, the
optional hour-of-day, and the raw categorical attributes. -/
structure Row where
  injured : Bool
  hour : Option Int
  borough : Option String
  factor1 : Option String
  factor2 : Option String
  vehicleType : Option String
  preCrash : Option String
  driverSex : Option String
deriving DecidableEq, Repr

/-- JS `String.prototype.trim()`: drop leading and trailing whitespace
(structural model of the library routine). -/
def jsTrim (s : String) : String :=
  ⟨((s.data.dropWhile Char.isWhitespace).reverse.dropWhile Char.isWhitespace).reverse⟩

/-- JS `String.prototype.toUpperCase()` on the labels at hand. -/
def jsToUpper (s : String) : String := ⟨s.data.map Char.toUpper⟩

/-- `cleanCat` from the orchestrator module: trims, and maps the sentinel
values (empty, "Unspecified", "NA", "Unknown") to `none`. -/
def cleanCat : Option String → Option String
  | none => none
  | some s =>
    let t := jsTrim s
    if t = "" ∨ t = "Unspecified" ∨ t = "NA" ∨ t = "Unknown" then none else some t

/-- JS `String(x)` coercion followed by `cleanCat`, for a `Map`-key value. -/
def cleanCatJS : JSVal → Option String
  | .str s => cleanCat (some s)
  | .num n => cleanCat (some (toString n))

/-- `val` from the analysis module: trims, and maps empty, "NA" and
"Unknown" (but not "Unspecified") to `none`. -/
def val : Option String → Option String
  | none => none
  | some s =>
    let t := jsTrim s
    if t = "" ∨ t = "NA" ∨ t = "Unknown" then none else some t

/-- `normalizeDriverSex` from the analysis module: single letter codes map
to "Male"/"Female"; anything else passes through unchanged. -/
def normalizeDriverSex : Option String → Option String
  | none => none
  | some s =>
    let t := jsToUpper (jsTrim s)
    if t = "M" then some "Male" else if t = "F" then some "Female" else some s

/-- JS `String(h).padStart(2, '0')`. -/
def pad2 (s : String) : String :=
  if 2 ≤ s.length then s else if s.length = 1 then "0" ++ s else "00"

/-- Count of injured records (`rows.reduce((a, r) => a + (r.injured ? 1 : 0), 0)`). -/
def countInjured (rows : List Row) : Nat := rows.countP (fun r => r.injured)

/-- `injuredTotal / Math.max(1, N)`. -/
def baseRateOf (rows : List Row) : ℚ :=
  (countInjured rows : ℚ) / max 1 (rows.length : ℚ)

/-- The `1e-9` epsilon floor used by the odds computations. -/
def eps : ℚ := 1 / 1000000000

/-- `baseRate / Math.max(1e-9, 1 - baseRate)`. -/
def oddsOf (p : ℚ) : ℚ := p / max eps (1 - p)

/-- First-match lookup in an association list; models `Map.get` (keys are
unique by construction, and JS `Map` keeps first insertion position). -/
def assocGet {κ α : Type} [DecidableEq κ] : List (κ × α) → κ → Option α
  | [], _ => none
  | (k, a) :: rest, k' => if k = k' then some a else assocGet rest k'

/-- Increment the (count, injured-count) cell for key `v`, inserting at the
end on first occurrence — exactly the `Map` update loop of the builders. -/
def bump : List (String × Nat × Nat) → String → Bool → List (String × Nat × Nat)
  | [], v, inj => [(v, 1, if inj then 1 else 0)]
  | (k, n, a) :: rest, v, inj =>
    if k = v then (k, n + 1, if inj then a + 1 else a) :: rest
    else (k, n, a) :: bump rest v inj

/-- One marginal entry: sample size, injured count, EB-shrunk rate, and
odds ratio versus baseline. -/
structure MarginalEntry where
  n : Nat
  a : Nat
  rate : ℚ
  or : ℚ
deriving DecidableEq, Repr

/-- Output of `buildMarginals`: the dataset base rate and, per dimension
key, the per-value marginal entries. -/
structure Marginals where
  baseRate : ℚ
  maps : List (String × List (JSVal × MarginalEntry))
deriving DecidableEq, Repr

/-- The six dimension keys tracked by `buildMarginals`, in source order. -/
def marginalKeys : List String :=
  ["preCrash", "vehicleType", "driverSex", "borough", "hour", "factor1"]

/-- `r[key]` followed by the hour special case and `cleanCat`, as in the
builder's inner loop.  An unrecognized key reads `undefined`, which
`cleanCat` maps to `none`. -/
def dimValue (key : String) (r : Row) : Option String :=
  if key = "hour" then
    match r.hour with
    | none => none
    | some h => cleanCat (some (toString h))
  else if key = "preCrash" then cleanCat r.preCrash
  else if key = "vehicleType" then cleanCat r.vehicleType
  else if key = "driverSex" then cleanCat r.driverSex
  else if key = "borough" then cleanCat r.borough
  else if key = "factor1" then cleanCat r.factor1
  else none

/-- Per-dimension counting pass of `buildMarginals`. -/
def countsFor (key : String) (rows : List Row) : List (String × Nat × Nat) :=
  rows.foldl
    (fun m r =>
      match dimValue key r with
      | none => m
      | some v => bump m v r.injured)
    []

/-- The EB rate / odds / odds-ratio computation applied to one counted
group in `buildMarginals` (priorK = 50). -/
def mkEntry (p : ℚ) (n a : Nat) : MarginalEntry :=
  let rate := ((a : ℚ) + 50 * p) / ((n : ℚ) + 50)
  let odds := rate / max eps (1 - rate)
  let baseOdds := p / max eps (1 - p)
  { n := n, a := a, rate := rate, or := odds / max eps baseOdds }

/-- Second pass of `buildMarginals` for one dimension: every counted value
becomes a string-keyed marginal entry. -/
def entriesFor (p : ℚ) (key : String) (rows : List Row) :
    List (JSVal × MarginalEntry) :=
  (countsFor key rows).map (fun x => (JSVal.str x.1, mkEntry p x.2.1 x.2.2))

/-- `buildMarginals(rows)` from the orchestrator module. -/
def buildMarginals (rows : List Row) : Marginals :=
  let p := baseRateOf rows
  { baseRate := p
    maps := marginalKeys.map (fun k => (k, entriesFor p k rows)) }

/-- `ebShrink(a, n, baseRate, k)` from the orchestrator module. -/
def ebShrink (a n baseRate k : ℚ) : ℚ := (a + k * baseRate) / (n + k)

/-- The user's selection: each dimension optional (`null` = wildcard). -/
structure Choice where
  preCrash : Option String
  vehicleType : Option String
  driverSex : Option String
  borough : Option String
  hour : Option Int
  factor1 : Option String
deriving DecidableEq, Repr

/-- The exact-match filter predicate of `estimateRisk`: every selected
field must equal the record's cleaned value; `null` (and the JS-falsy
empty string) are wildcards; hour compares the raw numbers. -/
def matchesChoice (c : Choice) (r : Row) : Bool :=
  (match c.preCrash with
   | none => true
   | some v => if v = "" then true else decide (cleanCat r.preCrash = some v)) &&
  (match c.vehicleType with
   | none => true
   | some v => if v = "" then true else decide (cleanCat r.vehicleType = some v)) &&
  (match c.driverSex with
   | none => true
   | some v => if v = "" then true else decide (cleanCat r.driverSex = some v)) &&
  (match c.borough with
   | none => true
   | some v => if v = "" then true else decide (cleanCat r.borough = some v)) &&
  (match c.hour with
   | none => true
   | some h =>
     match r.hour with
     | none => false
     | some h2 => decide (h2 = h)) &&
  (match c.factor1 with
   | none => true
   | some v => if v = "" then true else decide (cleanCat r.factor1 = some v))

/-- The exact-match subset of the record set for a selection. -/
def exactMatches (c : Choice) (rows : List Row) : List Row :=
  rows.filter (matchesChoice c)

/-- One contributing factor actually applied in the backoff step; `or` is
the raw (unclamped) marginal odds ratio. -/
structure Component where
  key : String
  value : JSVal
  or : ℚ
  n : Nat
deriving DecidableEq, Repr

/-- The per-factor odds-ratio clamp `Math.max(0.25, Math.min(4.0, or))`. -/
def clampOR (q : ℚ) : ℚ := max (1 / 4) (min 4 q)

/-- The inner `apply(key, val)` helper of `estimateRisk`: cleans the
selected value (hour is looked up with its raw number), finds the marginal
entry, multiplies the running product by the clamped odds ratio and
records the component with the raw odds ratio.  Any failure to find a map
or an entry leaves the state unchanged. -/
def applyC (marg : Marginals) (key : String) (v? : Option JSVal)
    (st : ℚ × List Component) : ℚ × List Component :=
  match v? with
  | none => st
  | some jv =>
    match (if key = "hour" then some jv else (cleanCatJS jv).map JSVal.str) with
    | none => st
    | some v =>
      match assocGet marg.maps key with
      | none => st
      | some m =>
        match assocGet m v with
        | none => st
        | some e => (st.1 * clampOR e.or, st.2 ++ [⟨key, v, e.or, e.n⟩])

/-- The six `apply` calls of the backoff step, in source order, starting
from an odds-ratio product of 1 and no components. -/
def backoffStateOf (c : Choice) (marg : Marginals) : ℚ × List Component :=
  applyC marg "factor1" (c.factor1.map .str)
    (applyC marg "hour" (c.hour.map .num)
      (applyC marg "borough" (c.borough.map .str)
        (applyC marg "driverSex" (c.driverSex.map .str)
          (applyC marg "vehicleType" (c.vehicleType.map .str)
            (applyC marg "preCrash" (c.preCrash.map .str) (1, []))))))

/-- JS `Math.round` (half rounds up). -/
def jsRound (q : ℚ) : Int := ⌊q + 1 / 2⌋

/-- The estimator's output record. -/
structure Estimate where
  n : Nat
  inj : Nat
  rate : ℚ
  baseRate : ℚ
  rr : ℚ
  method : String
  components : List Component
  exactRate : ℚ
  backoffRate : ℚ
  nEff : Int
deriving DecidableEq, Repr

/-- `estimateRisk(choice, rows)` from the orchestrator module, with the
module-level `marginalsCache` made an explicit argument (the spec's
`estimateRisk(selection, records, marginals)` contract).  `isFinite`
checks on the backoff rate are always true over `ℚ` (the backoff rate is a
ratio of finite nonnegative quantities with denominator `≥ 1`). -/
def estimateRisk (choice : Choice) (rows : List Row) (marg : Marginals) :
    Estimate :=
  let p := baseRateOf rows
  let ms := exactMatches choice rows
  let n := ms.length
  let inj := countInjured ms
  let exactRate := ((inj : ℚ) + 50 * p) / ((n : ℚ) + 50)
  let st := backoffStateOf choice marg
  let combinedOdds := oddsOf p * st.1
  let backoffRate := combinedOdds / (1 + combinedOdds)
  let w : ℚ := (n : ℚ) / ((n : ℚ) + 50)
  let rate :=
    if 30 ≤ n then exactRate
    else if 0 < n then w * exactRate + (1 - w) * backoffRate
    else backoffRate
  { n := n
    inj := inj
    rate := rate
    baseRate := p
    rr := if 0 < p then rate / p else 1
    method := if 30 ≤ n then "exact" else if 0 < n then "blend" else "backoff"
    components := st.2
    exactRate := exactRate
    backoffRate := backoffRate
    nEff :=
      if 30 ≤ n then (n : Int)
      else if 0 < n then jsRound ((n : ℚ) + (1 - w) * 50)
      else (st.2.foldl (fun s c => s + c.n) 0 : Nat) }

/-- `safeChi(obs, exp)` from the analysis module: a cell with expected
count `≤ 0` contributes 0, guarding the division. -/
def safeChi (obs exp : ℚ) : ℚ :=
  if exp ≤ 0 then 0 else (obs - exp) * (obs - exp) / exp

/-- The 2×2 chi-square statistic of `analyzeFactors`, over the cells
(group injured, group not injured, others injured, others not injured). -/
def chi2Table (a b c d : Nat) : ℚ :=
  let a' : ℚ := a
  let b' : ℚ := b
  let c' : ℚ := c
  let d' : ℚ := d
  let total := a' + b' + c' + d'
  let row1 := a' + b'
  let row2 := c' + d'
  let col1 := a' + c'
  let col2 := b' + d'
  let ea := row1 * col1 / total
  let eb := row1 * col2 / total
  let ec := row2 * col1 / total
  let ed := row2 * col2 / total
  safeChi a' ea + safeChi b' eb + safeChi c' ec + safeChi d' ed

/-- Modelled from the spec (§4.3): expected count of a cell is
`rowTotal·colTotal/grandTotal` and the statistic is the sum over the four
cells of `(observed − expected)² / expected`, a cell with expected count
`≤ 0` contributing exactly 0.  Stated independently of `chi2Table` as the
refinement target. -/
def chi2Spec (a b c d : Nat) : ℚ :=
  let grand : ℚ := (a : ℚ) + b + c + d
  let cell : ℚ → ℚ → ℚ → ℚ := fun obs rowT colT =>
    let expected := rowT * colT / grand
    if expected ≤ 0 then 0 else (obs - expected) ^ 2 / expected
  cell a ((a : ℚ) + b) ((a : ℚ) + c) + cell b ((a : ℚ) + b) ((b : ℚ) + d) +
    cell c ((c : ℚ) + d) ((a : ℚ) + c) + cell d ((c : ℚ) + d) ((b : ℚ) + d)

/-- One row of `analyzeFactors` output.  `rr = none` models the JS
`Infinity` produced when the others' rate is 0 but the group rate is not. -/
structure FactorResult where
  factor : String
  value : String
  n : Nat
  injured : Nat
  rate : ℚ
  otherN : Nat
  otherInjured : Nat
  otherRate : ℚ
  rr : Option ℚ
  chi2 : ℚ
  baseRate : ℚ
deriving DecidableEq, Repr

/-- The result record pushed by `analyzeFactors` for a surviving group. -/
def mkFactorResult (name v : String) (n a otherN otherInj : Nat) (p : ℚ) :
    FactorResult :=
  let rate : ℚ := if n = 0 then 0 else (a : ℚ) / n
  let otherRate : ℚ := if otherN = 0 then 0 else (otherInj : ℚ) / otherN
  { factor := name
    value := v
    n := n
    injured := a
    rate := rate
    otherN := otherN
    otherInjured := otherInj
    otherRate := otherRate
    rr :=
      if 0 < otherRate then some (rate / otherRate)
      else if 0 < rate then none else some 1
    chi2 := chi2Table a (n - a) otherInj (otherN - otherInj)
    baseRate := p }

/-- Counting pass of `analyzeFactors` for one factor extractor, skipping
null, empty and "Unspecified" values. -/
def countsF (get : Row → Option String) (rows : List Row) :
    List (String × Nat × Nat) :=
  rows.foldl
    (fun m r =>
      match get r with
      | none => m
      | some v =>
        if v = "" ∨ v = "Unspecified" then m else bump m v r.injured)
    []

/-- The seven candidate factor extractors of `analyzeFactors`, in source
order. -/
def factorsList : List (String × (Row → Option String)) :=
  [("Borough", fun r => val r.borough),
   ("Contributing factor", fun r => val r.factor1),
   ("Contributing factor (2)", fun r => val r.factor2),
   ("Vehicle type", fun r => val r.vehicleType),
   ("Pre-crash action", fun r => val r.preCrash),
   ("Driver sex", fun r => normalizeDriverSex (val r.driverSex)),
   ("Hour of day", fun r => r.hour.map (fun h => pad2 (toString h) ++ ":00"))]

/-- The unranked result list of `analyzeFactors`: for each factor and each
counted value, keep the group only if its size is at least 30 and the
"others" group is non-empty. -/
def buildResults (rows : List Row) : List FactorResult :=
  let N := rows.length
  let injTot := countInjured rows
  let p := baseRateOf rows
  factorsList.flatMap (fun f =>
    (countsF f.2 rows).filterMap (fun x =>
      if x.2.1 < 30 then none
      else
        let otherN := N - x.2.1
        let otherInj := injTot - x.2.2
        if otherN = 0 then none
        else some (mkFactorResult f.1 x.1 x.2.1 x.2.2 otherN otherInj p)))

/-- The ranking order of `analyzeFactors`: descending chi-square, ties by
descending group size (the sort comparator
`d3.descending(chi2) || d3.descending(n)`). -/
def factorOrd (x y : FactorResult) : Prop :=
  y.chi2 < x.chi2 ∨ (x.chi2 = y.chi2 ∧ y.n ≤ x.n)

instance : DecidableRel factorOrd := fun x y => by
  unfold factorOrd; infer_instance

instance : IsTotal FactorResult factorOrd where
  total x y := by
    unfold factorOrd
    rcases lt_trichotomy x.chi2 y.chi2 with h | h | h
    · exact Or.inr (Or.inl h)
    · rcases le_total y.n x.n with h2 | h2
      · exact Or.inl (Or.inr ⟨h, h2⟩)
      · exact Or.inr (Or.inr ⟨h.symm, h2⟩)
    · exact Or.inl (Or.inl h)

instance : IsTrans FactorResult factorOrd where
  trans x y z := by
    unfold factorOrd
    rintro (h1 | ⟨h1, h1n⟩) (h2 | ⟨h2, h2n⟩)
    · exact Or.inl (h2.trans h1)
    · exact Or.inl (h2 ▸ h1)
    · exact Or.inl (h1 ▸ h2)
    · exact Or.inr ⟨h1.trans h2, h2n.trans h1n⟩

/-- `analyzeFactors(rows)` from the analysis module: rank the surviving
groups and keep the top 15. -/
def analyzeFactors (rows : List Row) : List FactorResult :=
  if rows.length = 0 then []
  else ((buildResults rows).insertionSort factorOrd).take 15

/-! ## Generic helper lemmas -/

lemma getD_eq_some {α : Type} (o : Option α) (d : α) (h : o.isSome = true) :
    o = some (o.getD d) := by
  cases o with
  | none => simp at h
  | some a => rfl

lemma headD_mem {α : Type} (l : List α) (d : α) (h : l.isEmpty = false) :
    l.headD d ∈ l := by
  cases l with
  | nil => simp at h
  | cons a t => simp

/-! ## C7 — category normalizer -/

/-- C7 (counterexample): the claim says the category normalizer maps a
trimmed "Unspecified" to null; the ranking engine's normalizer `val`
returns it unchanged instead. -/
theorem c7_unspecified_cex :
    jsTrim "Unspecified" = "Unspecified" ∧
    val (some "Unspecified") = some "Unspecified" := by
  exact ⟨by decide, by decide⟩

/-- C7 (amended): `cleanCat` trims and returns null exactly for the empty
string, "NA", "Unknown" and "Unspecified", and otherwise the trimmed
input; the ranking engine's `val` does the same for the empty string,
"NA" and "Unknown" only ("Unspecified" passes through). -/
theorem c7_normalizer (s : String) :
    (cleanCat (some s) = none ↔
      (jsTrim s = "" ∨ jsTrim s = "NA" ∨ jsTrim s = "Unknown" ∨
        jsTrim s = "Unspecified")) ∧
    (cleanCat (some s) = none ∨ cleanCat (some s) = some (jsTrim s)) ∧
    (val (some s) = none ↔
      (jsTrim s = "" ∨ jsTrim s = "NA" ∨ jsTrim s = "Unknown")) ∧
    (val (some s) = none ∨ val (some s) = some (jsTrim s)) ∧
    cleanCat none = none ∧ val none = none := by
  refine ⟨?_, ?_, ?_, ?_, rfl, rfl⟩ <;>
    · simp only [cleanCat, val]
      split_ifs with h <;> simp_all
      try tauto

/-! ## C2 — empirical-Bayes shrinkage -/

lemma rate_of_entriesFor (l : List (String × Nat × Nat)) (p : ℚ) (v : JSVal)
    (e : MarginalEntry)
    (h : assocGet (l.map (fun x => (JSVal.str x.1, mkEntry p x.2.1 x.2.2))) v =
      some e) :
    e.rate = ((e.a : ℚ) + 50 * p) / ((e.n : ℚ) + 50) := by
  induction l with
  | nil => simp [assocGet] at h
  | cons hd tl ih =>
    simp only [List.map_cons, assocGet] at h
    split_ifs at h with hk
    · cases h
      simp [mkEntry]
    · exact ih h

lemma maps_of_buildMarginals (rows : List Row) (key : String)
    (m : List (JSVal × MarginalEntry))
    (h : assocGet (buildMarginals rows).maps key = some m) :
    ∃ k, m = entriesFor (baseRateOf rows) k rows := by
  simp only [buildMarginals, marginalKeys, List.map_cons, List.map_nil,
    assocGet] at h
  split_ifs at h <;> (cases h; exact ⟨_, rfl⟩)

/-- C2: every marginal entry's shrunk rate is `(a + k·baseRate)/(n + k)`
with `k = 50`; the 1,000-record scenario value is exactly `25/90`; the
`n = 0` shrunk rate is exactly the base rate. -/
theorem c2_eb_shrinkage :
    (∀ (rows : List Row) (key : String) (m : List (JSVal × MarginalEntry))
        (v : JSVal) (e : MarginalEntry),
      assocGet (buildMarginals rows).maps key = some m →
      assocGet m v = some e →
      e.rate = ebShrink (e.a : ℚ) (e.n : ℚ) (buildMarginals rows).baseRate 50) ∧
    ebShrink 20 40 (1 / 10) 50 = 25 / 90 ∧
    (∀ b : ℚ, ebShrink 0 0 b 50 = b) := by
  refine ⟨?_, ?_, ?_⟩
  · intro rows key m v e hm he
    obtain ⟨k, rfl⟩ := maps_of_buildMarginals rows key m hm
    have hb : (buildMarginals rows).baseRate = baseRateOf rows := rfl
    rw [hb, ebShrink]
    exact rate_of_entriesFor _ _ _ _ he
  · rw [ebShrink]; norm_num
  · intro b
    rw [ebShrink]
    field_simp

def rows2 : List Row := [⟨true, none, some "A", none, none, none, none, none⟩]

def m2 : List (JSVal × MarginalEntry) :=
  (assocGet (buildMarginals rows2).maps "borough").getD []

def e2 : MarginalEntry := (assocGet m2 (JSVal.str "A")).getD (mkEntry 0 0 0)

/-- C2 (witness): the single-record data set has a borough entry whose
rate satisfies the shrinkage formula. -/
theorem c2_eb_shrinkage_witness :
    e2.rate = ebShrink (e2.a : ℚ) (e2.n : ℚ) (buildMarginals rows2).baseRate 50 :=
  c2_eb_shrinkage.1 rows2 "borough" m2 (JSVal.str "A") e2
    (getD_eq_some _ _ (by decide)) (getD_eq_some _ _ (by decide))

/-! ## C3 — backoff clamping -/

/-- C3: every odds ratio multiplied into the running product is the
clamped value, which always lies in `[0.25, 4.0]`, while the component
pushed onto the contributing-factors list carries the raw entry odds
ratio. -/
theorem c3_clamped_odds :
    (∀ q : ℚ, 1 / 4 ≤ clampOR q ∧ clampOR q ≤ 4) ∧
    (∀ (marg : Marginals) (key : String) (v? : Option JSVal)
        (st : ℚ × List Component),
      applyC marg key v? st = st ∨
      ∃ jv v m e, v? = some jv ∧
        (if key = "hour" then some jv else (cleanCatJS jv).map JSVal.str) =
          some v ∧
        assocGet marg.maps key = some m ∧ assocGet m v = some e ∧
        applyC marg key v? st =
          (st.1 * clampOR e.or, st.2 ++ [⟨key, v, e.or, e.n⟩])) := by
  constructor
  · intro q
    refine ⟨le_max_left _ _, max_le (by norm_num) (min_le_left _ _)⟩
  · intro marg key v? st
    rcases v? with _ | jv
    · exact Or.inl rfl
    · rw [applyC]
      rcases hv : (if key = "hour" then some jv else
          (cleanCatJS jv).map JSVal.str) with _ | v
      · exact Or.inl rfl
      · dsimp only
        rcases hm : assocGet marg.maps key with _ | m
        · exact Or.inl rfl
        · dsimp only
          rcases he : assocGet m v with _ | e
          · exact Or.inl rfl
          · dsimp only
            refine Or.inr ⟨jv, v, m, e, rfl, ?_, ?_, ?_, ?_⟩ <;> first | exact hv | exact hm | exact he | rfl

/-! ## C1 — method selection -/

/-- C1: the estimator's method is `exact` iff the exact-match count is at
least 30, `backoff` iff it is 0, and `blend` iff it is strictly between 0
and 30. -/
theorem c1_method_selection (choice : Choice) (rows : List Row)
    (marg : Marginals) :
    ((estimateRisk choice rows marg).method = "exact" ↔
      30 ≤ (estimateRisk choice rows marg).n) ∧
    ((estimateRisk choice rows marg).method = "backoff" ↔
      (estimateRisk choice rows marg).n = 0) ∧
    ((estimateRisk choice rows marg).method = "blend" ↔
      (0 < (estimateRisk choice rows marg).n ∧
        (estimateRisk choice rows marg).n < 30)) := by
  simp only [estimateRisk]
  split_ifs with h1 h2 <;> refine ⟨?_, ?_, ?_⟩ <;> constructor <;>
    intro hc <;> simp_all <;> omega

/-! ## C6 — empty input -/

/-- C6: on the empty record set no core operation fails: the analyzer
returns the empty list, the marginals builder yields base rate 0 with all
six per-dimension maps empty, and the estimator returns rate 0, relative
risk 1 and method `backoff` for every selection and marginals cache. -/
theorem c6_empty_input :
    analyzeFactors ([] : List Row) = [] ∧
    (buildMarginals ([] : List Row)).baseRate = 0 ∧
    (buildMarginals ([] : List Row)).maps =
      [("preCrash", []), ("vehicleType", []), ("driverSex", []),
        ("borough", []), ("hour", []), ("factor1", [])] ∧
    ∀ (choice : Choice) (marg : Marginals),
      (estimateRisk choice [] marg).rate = 0 ∧
      (estimateRisk choice [] marg).rr = 1 ∧
      (estimateRisk choice [] marg).method = "backoff" := by
  refine ⟨by simp [analyzeFactors], ?_, ?_, ?_⟩
  · simp [buildMarginals, baseRateOf, countInjured]
  · simp [buildMarginals, marginalKeys, entriesFor, countsFor]
  · intro choice marg
    have hp : baseRateOf ([] : List Row) = 0 := by
      simp [baseRateOf, countInjured]
    have hm : exactMatches choice ([] : List Row) = [] := rfl
    refine ⟨?_, ?_, ?_⟩ <;>
      simp [estimateRisk, hm, hp, oddsOf, countInjured]

/-! ## C10 — all-wildcard selection -/

/-- The all-unselected choice: every dimension left `null`. -/
def noChoice : Choice := ⟨none, none, none, none, none, none⟩

/-- C10: on a record set of at least 30 records, the all-wildcard
selection matches every record and the estimator returns `exact` with
rate exactly the base rate and relative risk exactly 1 — shrinkage toward
the full sample's own mean is the identity. -/
theorem c10_all_wildcards (rows : List Row) (marg : Marginals)
    (h : 30 ≤ rows.length) :
    (estimateRisk noChoice rows marg).n = rows.length ∧
    (estimateRisk noChoice rows marg).method = "exact" ∧
    (estimateRisk noChoice rows marg).rate =
      (estimateRisk noChoice rows marg).baseRate ∧
    (estimateRisk noChoice rows marg).rr = 1 := by
  have hm : exactMatches noChoice rows = rows := by
    apply List.filter_eq_self.mpr
    intro r _
    simp [matchesChoice, noChoice]
  have hN1 : (1 : ℚ) ≤ (rows.length : ℚ) := by
    have : 1 ≤ rows.length := by omega
    exact_mod_cast this
  have hN0 : ((rows.length : ℚ)) ≠ 0 := by linarith
  have hmax : max 1 ((rows.length : ℚ)) = (rows.length : ℚ) := max_eq_right hN1
  have hp : baseRateOf rows = (countInjured rows : ℚ) / (rows.length : ℚ) := by
    rw [baseRateOf, hmax]
  have hrate :
      ((countInjured rows : ℚ) + 50 * baseRateOf rows) /
        ((rows.length : ℚ) + 50) = baseRateOf rows := by
    rw [hp]
    have h50 : ((rows.length : ℚ)) + 50 ≠ 0 := by linarith
    field_simp
    ring
  refine ⟨?_, ?_, ?_, ?_⟩
  · simp [estimateRisk, hm]
  · simp [estimateRisk, hm, h]
  · simp only [estimateRisk, hm, if_pos h]
    exact hrate
  · simp only [estimateRisk, hm, if_pos h]
    rcases lt_or_le 0 (baseRateOf rows) with hbp | hbp
    · rw [if_pos hbp, hrate, div_self (ne_of_gt hbp)]
    · rw [if_neg (not_lt.mpr hbp)]

def rows30 : List Row :=
  List.replicate 30 ⟨true, none, none, none, none, none, none, none⟩

/-- C10 (witness): the theorem applied to 30 identical injured records. -/
theorem c10_all_wildcards_witness :
    (estimateRisk noChoice rows30 (buildMarginals [])).n = rows30.length ∧
    (estimateRisk noChoice rows30 (buildMarginals [])).method = "exact" ∧
    (estimateRisk noChoice rows30 (buildMarginals [])).rate =
      (estimateRisk noChoice rows30 (buildMarginals [])).baseRate ∧
    (estimateRisk noChoice rows30 (buildMarginals [])).rr = 1 :=
  c10_all_wildcards rows30 (buildMarginals []) (by decide)

/-! ## C8 — unknown dimension key -/

lemma assocGet_map_self_none {α : Type} (l : List String) (f : String → α)
    (key : String) (h : ¬ key ∈ l) :
    assocGet (l.map (fun k => (k, f k))) key = none := by
  induction l with
  | nil => rfl
  | cons hd tl ih =>
    simp only [List.map_cons, assocGet]
    simp only [List.mem_cons, not_or] at h
    rw [if_neg (fun hh => h.1 hh.symm), ih h.2]

/-- C8 (counterexample): looking up a dimension name outside the
recognized set is silently ignored — the backoff step returns its state
unchanged and no error is signalled. -/
theorem c8_silently_ignored_cex :
    applyC (buildMarginals rows2) "weatherCondition"
      (some (JSVal.str "Rain")) (1, []) = (1, []) := by
  decide

/-- C8 (amended): a dimension key outside the recognized six-key set has
no map in the builder's output, so the backoff `apply` step leaves its
state unchanged — the violation is silently ignored, not signalled. -/
theorem c8_unknown_dimension (rows : List Row) (key : String)
    (v? : Option JSVal) (st : ℚ × List Component)
    (h : ¬ key ∈ marginalKeys) :
    applyC (buildMarginals rows) key v? st = st := by
  have hnone : assocGet (buildMarginals rows).maps key = none := by
    have : (buildMarginals rows).maps =
        marginalKeys.map (fun k => (k, entriesFor (baseRateOf rows) k rows)) :=
      rfl
    rw [this]
    exact assocGet_map_self_none _ _ _ h
  rcases v? with _ | jv
  · rfl
  · rw [applyC]
    rcases hv : (if key = "hour" then some jv else
        (cleanCatJS jv).map JSVal.str) with _ | v
    · rfl
    · dsimp only
      rw [hnone]

/-- C8 (witness): the amended theorem at a concrete unrecognized key. -/
theorem c8_unknown_dimension_witness :
    applyC (buildMarginals []) "weather" (some (JSVal.str "x")) (1, []) =
      (1, []) :=
  c8_unknown_dimension [] "weather" (some (JSVal.str "x")) (1, []) (by decide)

/-! ## C9 — zero-match backoff scenario -/

lemma applyC_prod_inv (marg : Marginals) (key : String) (v? : Option JSVal)
    (st : ℚ × List Component)
    (hst : st.1 = (st.2.map (fun c => clampOR c.or)).prod) :
    (applyC marg key v? st).1 =
      ((applyC marg key v? st).2.map (fun c => clampOR c.or)).prod := by
  rcases v? with _ | jv
  · exact hst
  · rw [applyC]
    rcases hv : (if key = "hour" then some jv else
        (cleanCatJS jv).map JSVal.str) with _ | v
    · exact hst
    · dsimp only
      rcases hm : assocGet marg.maps key with _ | m
      · exact hst
      · dsimp only
        rcases he : assocGet m v with _ | e
        · exact hst
        · simp [hst, List.prod_append]

lemma backoffStateOf_prod (c : Choice) (marg : Marginals) :
    (backoffStateOf c marg).1 =
      ((backoffStateOf c marg).2.map (fun x => clampOR x.or)).prod := by
  rw [backoffStateOf]
  apply applyC_prod_inv
  apply applyC_prod_inv
  apply applyC_prod_inv
  apply applyC_prod_inv
  apply applyC_prod_inv
  apply applyC_prod_inv
  simp

/-- C9 (counterexample): with base rate 0, a selection matching 0 records
whose single selected dimension has marginal odds ratio 3.0 yields method
`backoff` and combined odds `baselineOdds × 3.0 = 0`, but the resulting
rate equals the base rate instead of strictly exceeding it. -/
def rows1 : List Row := [⟨false, none, none, none, none, none, none, none⟩]

def marg1 : Marginals :=
  ⟨0, [("preCrash", [(JSVal.str "X", ⟨5, 2, 37 / 90, 3⟩)])]⟩

def ch9 : Choice := ⟨some "X", none, none, none, none, none⟩

theorem c9_zero_base_rate_cex :
    (exactMatches ch9 rows1).length = 0 ∧
    (∃ e : MarginalEntry,
      assocGet ((assocGet marg1.maps "preCrash").getD [])
        (JSVal.str "X") = some e ∧ e.or = 3) ∧
    (estimateRisk ch9 rows1 marg1).method = "backoff" ∧
    ¬ ((estimateRisk ch9 rows1 marg1).baseRate <
        (estimateRisk ch9 rows1 marg1).rate) := by
  have hn : (exactMatches ch9 rows1).length = 0 := by decide
  have hp : baseRateOf rows1 = 0 := by
    have h0 : countInjured rows1 = 0 := by decide
    rw [baseRateOf, h0]
    simp
  refine ⟨hn, ⟨⟨5, 2, 37 / 90, 3⟩, rfl, rfl⟩, ?_, ?_⟩
  · simp [estimateRisk, hn]
  · simp [estimateRisk, hn, hp, oddsOf]

/-- C9 (amended): if the selection matches 0 records, exactly one
contributing factor is applied and its raw marginal odds ratio is 3.0
(within the clamp range), and the base rate lies in `(0, 1 − 1e-9]` (so
the epsilon floor is inactive and the baseline odds are positive), then
the method is `backoff`, the combined odds are `baselineOdds × 3.0`, and
the resulting rate strictly exceeds the base rate. -/
theorem c9_backoff_scenario (choice : Choice) (rows : List Row)
    (marg : Marginals) (c : Component)
    (h0 : (exactMatches choice rows).length = 0)
    (h1 : (backoffStateOf choice marg).2 = [c])
    (h2 : c.or = 3)
    (hp0 : 0 < baseRateOf rows)
    (hp1 : baseRateOf rows ≤ 1 - eps) :
    (estimateRisk choice rows marg).method = "backoff" ∧
    oddsOf (baseRateOf rows) * (backoffStateOf choice marg).1 =
      oddsOf (baseRateOf rows) * 3 ∧
    (estimateRisk choice rows marg).baseRate <
      (estimateRisk choice rows marg).rate := by
  have hfst : (backoffStateOf choice marg).1 = 3 := by
    rw [backoffStateOf_prod, h1]
    simp only [List.map_cons, List.map_nil, List.prod_cons, List.prod_nil,
      mul_one, h2, clampOR]
    rw [min_eq_right (by norm_num), max_eq_right (by norm_num)]
  have heps : (0 : ℚ) < eps := by norm_num [eps]
  have h1p : (0 : ℚ) < 1 - baseRateOf rows := by
    have : eps ≤ 1 - baseRateOf rows := by linarith
    linarith
  have hmax : max eps (1 - baseRateOf rows) = 1 - baseRateOf rows :=
    max_eq_right (by linarith)
  have hodds : oddsOf (baseRateOf rows) =
      baseRateOf rows / (1 - baseRateOf rows) := by
    rw [oddsOf, hmax]
  have hb0 : 0 < oddsOf (baseRateOf rows) := by
    rw [hodds]
    exact div_pos hp0 h1p
  have hbmul : oddsOf (baseRateOf rows) * (1 - baseRateOf rows) =
      baseRateOf rows := by
    rw [hodds]
    exact div_mul_cancel₀ _ (ne_of_gt h1p)
  refine ⟨by simp [estimateRisk, h0], by rw [hfst], ?_⟩
  simp only [estimateRisk, h0, lt_irrefl, if_neg (by omega : ¬ 30 ≤ 0),
    if_neg (by omega : ¬ 0 < 0), hfst]
  set p := baseRateOf rows with hpdef
  set b := oddsOf p with hbdef
  have hden : (0 : ℚ) < 1 + b * 3 := by nlinarith
  rw [if_neg not_false, lt_div_iff₀ hden]
  nlinarith [hbmul, hp0, hb0]

def rows9 : List Row :=
  [⟨true, none, none, none, none, none, none, none⟩,
   ⟨false, none, none, none, none, none, none, none⟩]

lemma baseRate_rows9 : baseRateOf rows9 = 1 / 2 := by
  have h1 : countInjured rows9 = 1 := by decide
  have h2 : rows9.length = 2 := by decide
  rw [baseRateOf, h1, h2]
  norm_num

/-- C9 (witness): the amended theorem at a two-record data set with base
rate 1/2 and a cached marginal entry with odds ratio 3.0. -/
theorem c9_backoff_scenario_witness :
    (estimateRisk ch9 rows9 marg1).method = "backoff" ∧
    oddsOf (baseRateOf rows9) * (backoffStateOf ch9 marg1).1 =
      oddsOf (baseRateOf rows9) * 3 ∧
    (estimateRisk ch9 rows9 marg1).baseRate <
      (estimateRisk ch9 rows9 marg1).rate :=
  c9_backoff_scenario ch9 rows9 marg1 ⟨"preCrash", JSVal.str "X", 3, 5⟩
    (by decide) (by decide) rfl
    (by rw [baseRate_rows9]; norm_num)
    (by rw [baseRate_rows9]; norm_num [eps])

/-! ## C4 / C5 — factor ranking and chi-square -/

lemma mem_buildResults {rows : List Row} {x : FactorResult}
    (hx : x ∈ buildResults rows) :
    30 ≤ x.n ∧ 0 < x.otherN ∧
      x.chi2 = chi2Table x.injured (x.n - x.injured) x.otherInjured
        (x.otherN - x.otherInjured) := by
  simp only [buildResults, List.mem_flatMap, List.mem_filterMap] at hx
  obtain ⟨f, -, y, -, hy⟩ := hx
  split_ifs at hy with hsize hother
  cases hy
  refine ⟨?_, ?_, ?_⟩
  · show 30 ≤ y.2.1
    omega
  · show 0 < rows.length - y.2.1
    omega
  · rfl

lemma mem_analyzeFactors {rows : List Row} {x : FactorResult}
    (hx : x ∈ analyzeFactors rows) : x ∈ buildResults rows := by
  rw [analyzeFactors] at hx
  split_ifs at hx with h
  · simp at hx
  · exact (List.mem_insertionSort factorOrd).1 (List.mem_of_mem_take hx)

/-- C4: the ranked factor list has at most 15 entries, is sorted by
descending chi-square with ties broken by descending group size, and
every entry has group size at least 30 and a non-empty "others" group. -/
theorem c4_ranking (rows : List Row) :
    (analyzeFactors rows).length ≤ 15 ∧
    List.Sorted factorOrd (analyzeFactors rows) ∧
    ∀ x ∈ analyzeFactors rows, 30 ≤ x.n ∧ 0 < x.otherN := by
  refine ⟨?_, ?_, ?_⟩
  · rw [analyzeFactors]
    split_ifs
    · simp
    · exact List.length_take_le _ _
  · rw [analyzeFactors]
    split_ifs
    · exact List.sorted_nil
    · exact List.Pairwise.sublist (List.take_sublist _ _)
        (List.sorted_insertionSort factorOrd _)
  · intro x hx
    have h := mem_buildResults (mem_analyzeFactors hx)
    exact ⟨h.1, h.2.1⟩

def rA : Row := ⟨false, none, some "A", none, none, none, none, none⟩
def rB : Row := ⟨true, none, none, none, none, none, none, none⟩
def rows0 : List Row := List.replicate 30 rA ++ [rB]

/-- The first ranked factor of the 31-record example data set. -/
def fr0 : FactorResult :=
  (analyzeFactors rows0).headD (mkFactorResult "" "" 0 0 0 0 0)

/-- C4 (witness): the ranking theorem at the 31-record example. -/
theorem c4_ranking_witness :
    (analyzeFactors rows0).length ≤ 15 ∧ 30 ≤ fr0.n ∧ 0 < fr0.otherN :=
  ⟨(c4_ranking rows0).1,
    (c4_ranking rows0).2.2 fr0 (headD_mem _ _ (by decide))⟩

lemma safeChi_nonneg (obs exp : ℚ) : 0 ≤ safeChi obs exp := by
  rw [safeChi]
  split_ifs with h
  · exact le_refl 0
  · exact div_nonneg (mul_self_nonneg _) (le_of_lt (not_le.mp h))

/-- C5: the statistic computed for every 2×2 table equals the spec's
guarded sum of `(observed − expected)²/expected` over the four cells, is
always nonnegative, and is exactly the `chi2` field carried by every
entry `analyzeFactors` returns. -/
theorem c5_chi_square :
    (∀ a b c d : Nat,
      chi2Table a b c d = chi2Spec a b c d ∧ 0 ≤ chi2Table a b c d) ∧
    ∀ (rows : List Row) (x : FactorResult), x ∈ analyzeFactors rows →
      x.chi2 = chi2Table x.injured (x.n - x.injured) x.otherInjured
        (x.otherN - x.otherInjured) := by
  constructor
  · intro a b c d
    constructor
    · simp only [chi2Table, chi2Spec, safeChi, pow_two]
    · exact add_nonneg (add_nonneg (add_nonneg (safeChi_nonneg _ _)
        (safeChi_nonneg _ _)) (safeChi_nonneg _ _)) (safeChi_nonneg _ _)
  · intro rows x hx
    exact (mem_buildResults (mem_analyzeFactors hx)).2.2

/-- C5 (witness): the chi-square field of the first ranked factor of the
31-record example satisfies the table formula. -/
theorem c5_chi_square_witness :
    fr0.chi2 = chi2Table fr0.injured (fr0.n - fr0.injured) fr0.otherInjured
      (fr0.otherN - fr0.otherInjured) :=
  c5_chi_square.2 rows0 fr0 (headD_mem _ _ (by decide))
